import Mathlib

/-!
Shallow embedding of `scripts/write_slide_data.py`.

The script reads a presentation (via the external `pptx` capability), derives a
per-slide title and notes list, parses slide indices out of image filenames in
an image directory, joins the two by index, sorts by index and writes a JSON
descriptor `data.json`.  Every definition below is translated directly from the
corresponding lines of the Python source.
-/

namespace WriteSlideData

/-- Python `str.strip()`: drop leading and trailing whitespace. -/
def pstripL (l : List Char) : List Char :=
  ((l.dropWhile Char.isWhitespace).reverse.dropWhile Char.isWhitespace).reverse

/-- Python `s.strip()` on strings. -/
def pstrip (s : String) : String := ⟨pstripL s.data⟩

/-- One pass of `re.sub(r"\s+", " ", s)`: each maximal whitespace run becomes a
single space.  The boolean records whether the previous character was part of a
whitespace run already emitted. -/
def collapseAux : Bool → List Char → List Char
  | _, [] => []
  | afterWs, c :: cs =>
    if c.isWhitespace then
      if afterWs then collapseAux true cs else ' ' :: collapseAux true cs
    else c :: collapseAux false cs

/-- Python `re.sub(r"\s+", " ", s)`. -/
def collapseWs (s : String) : String := ⟨collapseAux false s.data⟩

/-- Python `re.sub("[^0-9a-zA-Z ]+", "", s)`: keep only ASCII letters, digits
and the space character. -/
def stripNonAlnumSpace (s : String) : String :=
  ⟨s.data.filter (fun c => c.isAlphanum || c == ' ')⟩

/-- A generic pptx shape: it may or may not expose a `text` attribute. -/
structure Shape where
  hasText : Bool
  text : String
deriving DecidableEq

/-- A slide as exposed by the pptx capability: an optional dedicated title
shape, the list of generic shapes, and the optional notes slide with its
optional text frame. -/
structure Slide where
  titleShape : Option Shape
  shapes : List Shape
  hasNotesSlide : Bool
  notesText : Option String
deriving DecidableEq

/-- The shape-scanning fallback of the title loop: the first shape that has a
`text` attribute with non-empty stripped text yields
`re.sub(r"\s+", " ", re.sub("[^0-9a-zA-Z ]+", "", shape.text.strip())).strip()`. -/
def firstShapeTitle : List Shape → Option String
  | [] => none
  | sh :: rest =>
    if sh.hasText ∧ 0 < (pstrip sh.text).length then
      some (pstrip (collapseWs (stripNonAlnumSpace (pstrip sh.text))))
    else firstShapeTitle rest

/-- Title resolution before the `Untitled` fallback and truncation: the
dedicated title shape when present with non-empty text, otherwise the first
text-bearing shape. -/
def rawTitle (s : Slide) : Option String :=
  match s.titleShape with
  | some ts =>
    if ts.hasText ∧ 0 < ts.text.length then some (pstrip (collapseWs ts.text))
    else firstShapeTitle s.shapes
  | none => firstShapeTitle s.shapes

/-- `max_length = 100` from the source. -/
def maxLength : Nat := 100

/-- The `title[0:max_length]` truncation guarded by `len(title) > max_length`. -/
def truncateTitle (t : String) : String :=
  if maxLength < t.length then ⟨t.data.take maxLength⟩ else t

/-- Full title resolution for the slide at position `index`, including the
`"Untitled " + str(index)` fallback and the final truncation. -/
def resolveTitle (index : Nat) (s : Slide) : String :=
  truncateTitle
    (match rawTitle s with
     | some t => t
     | none => "Untitled " ++ toString index)

/-- Notes extraction: `slide.notes_slide.notes_text_frame.text.strip()` when
the slide has a notes slide whose text frame is not `None`, else `""`. -/
def extractNotes (s : Slide) : String :=
  if s.hasNotesSlide then
    match s.notesText with
    | some t => pstrip t
    | none => ""
  else ""

/-- Python `s.split('.')` specialised to the separator used by the source. -/
def splitOnDot : List Char → List (List Char)
  | [] => [[]]
  | c :: cs =>
    let r := splitOnDot cs
    if c == '.' then [] :: r else (c :: r.headD []) :: r.tail

/-- `os.path.basename` for POSIX paths: everything after the last slash. -/
def basename (p : String) : String :=
  ⟨(p.data.reverse.takeWhile (fun c => c != '/')).reverse⟩

/-- The presentation-title computation: metadata title, with the
`file_name.split('.')[0]` fallback when the metadata title is `None`, empty or
the placeholder `"PowerPoint Presentation"`. -/
def resolveDocTitle (metaTitle : Option String) (pptxPath : String) : String :=
  match metaTitle with
  | none => ⟨(splitOnDot (basename pptxPath).data).headD []⟩
  | some t =>
    if t.length = 0 ∨ t = "PowerPoint Presentation" then
      ⟨(splitOnDot (basename pptxPath).data).headD []⟩
    else t

/-- Locate the last dot of a character list: `extSplit l = some (r, e)` when
`l = r ++ e` with `e` starting at the last `'.'` of `l`; `none` when `l` has no
dot.  This is the search underlying `os.path.splitext`. -/
def extSplit : List Char → Option (List Char × List Char)
  | [] => none
  | c :: cs =>
    match extSplit cs with
    | some (r, e) => some (c :: r, e)
    | none => if c == '.' then some ([], '.' :: cs) else none

/-- `os.path.splitext` for plain filenames (no path separators): split at the
last dot, except when every character before that dot is itself a dot (the
leading-dots rule), in which case the extension is empty. -/
def pysplitext (p : String) : String × String :=
  match extSplit p.data with
  | some (r, e) => if r.any (fun c => c != '.') then (⟨r⟩, ⟨e⟩) else (p, "")
  | none => (p, "")

/-- Maximal run of decimal digits at the end of a character list. -/
def trailingDigits (l : List Char) : List Char :=
  (l.reverse.takeWhile Char.isDigit).reverse

/-- What remains before `trailingDigits`. -/
def beforeDigits (l : List Char) : List Char :=
  (l.reverse.dropWhile Char.isDigit).reverse

/-- Python `int` on a string of decimal digits. -/
def digitsToNat (ds : List Char) : Nat :=
  ds.foldl (fun a c => a * 10 + (c.toNat - 48)) 0

/-- The filename indexer:
`re.findall(r"-(\d+)" + re.escape(ext) + r"$", entry)` with
`(_, ext) = os.path.splitext(entry)`, taking `int` of the first match and
defaulting to `0` when there is no match.  A match exists exactly when the root
(the filename minus its extension) ends in a non-empty digit run immediately
preceded by `'-'`, and the captured group is that maximal digit run. -/
def parseIndex (entry : String) : Nat :=
  let root := (pysplitext entry).1
  let ds := trailingDigits root.data
  let pre := beforeDigits root.data
  if ds ≠ [] ∧ pre.getLast? = some '-' then digitsToNat ds else 0

/-- One entry of the per-slide list `slide_info`. -/
structure SlideInfo where
  title : String
  notes : String
deriving DecidableEq

/-- A directory entry returned by `os.listdir`, tagged with the
`os.path.isdir` test result. -/
structure DirEntry where
  name : String
  isDir : Bool
deriving DecidableEq

/-- One element of `slides_data`. -/
structure SlideRecord where
  index : Nat
  title : String
  notes : String
  image : String
deriving DecidableEq

/-- The JSON document written to `data.json`. -/
structure Descriptor where
  title : String
  slides : List SlideRecord
deriving DecidableEq

/-- What the pptx capability exposes of the presentation file. -/
structure Presentation where
  metaTitle : Option String
  slides : List Slide
deriving DecidableEq

/-- The `for index, slide in enumerate(prs.slides)` loop, carried out from a
given starting index. -/
def buildSlideInfoFrom (i : Nat) : List Slide → List SlideInfo
  | [] => []
  | s :: rest =>
    { title := resolveTitle i s, notes := extractNotes s } :: buildSlideInfoFrom (i + 1) rest

/-- The full `slide_info` list. -/
def buildSlideInfo (slides : List Slide) : List SlideInfo :=
  buildSlideInfoFrom 0 slides

/-- Error message of a Python `IndexError` on list indexing. -/
def indexErrMsg : String := "IndexError: list index out of range"

/-- The per-entry loop over `folder_content`: skip directories, parse the
index, look `slide_info` up at it (`slide_info[index]` raises `IndexError`
when the index is out of range) and build a record. -/
def processEntries (info : List SlideInfo) : List DirEntry → Except String (List SlideRecord)
  | [] => Except.ok []
  | e :: es =>
    if e.isDir then processEntries info es
    else
      match info.get? (parseIndex e.name) with
      | none => Except.error indexErrMsg
      | some si =>
        match processEntries info es with
        | Except.error m => Except.error m
        | Except.ok rest =>
          Except.ok ({ index := parseIndex e.name, title := si.title,
                       notes := si.notes, image := e.name } :: rest)

/-- The comparison induced by `sort_by_index` (Python sorts by key with `<`,
which for the purposes of a stable sort is the boolean `≤` on keys). -/
def recLe (a b : SlideRecord) : Bool := decide (a.index ≤ b.index)

/-- The usage error raised when fewer than two positional arguments are
supplied. -/
def usageMsg : String := "Required arguments are: path to pptx and path to a folder with slide images"

/-- The whole run of the script, as a function of the positional arguments
(`sys.argv[1:]`), the parsed presentation and the directory listing.  The
result is the descriptor that gets serialised to `data.json`, or the
exception message on the aborting paths. -/
def runProgram (args : List String) (prs : Presentation) (listing : List DirEntry) :
    Except String Descriptor :=
  if args.length < 2 then Except.error usageMsg
  else
    match processEntries (buildSlideInfo prs.slides) listing with
    | Except.error m => Except.error m
    | Except.ok recs =>
      Except.ok { title := resolveDocTitle prs.metaTitle (args.headD ""),
                  slides := recs.mergeSort recLe }

/-- Observable events of the final output-writing block. -/
inductive FileEv where
  | openW
  | writeContent
  | raised
  | closeF
deriving DecidableEq

/-- The trace of the final block

```
data_file = None
try:
    data_file = open(os.path.join(images_path, "data.json"), "w")
    data_file.write(json.dumps(...))
finally:
    if data_file is not None:
        data_file.close()
```

as a function of whether `open` succeeds, whether `json.dumps` succeeds and
whether the `write` call succeeds.  The boolean paired with the try-part
trace is the truth of `data_file is not None` when the `finally` block runs. -/
def writeDataJson (openOk serOk writeOk : Bool) : List FileEv :=
  let tryPart : List FileEv × Bool :=
    if openOk then
      if serOk then
        if writeOk then ([FileEv.openW, FileEv.writeContent], true)
        else ([FileEv.openW, FileEv.raised], true)
      else ([FileEv.openW, FileEv.raised], true)
    else ([FileEv.raised], false)
  tryPart.1 ++ (if tryPart.2 then [FileEv.closeF] else [])

/-- Whether the `data.json` handle is still open after a trace. -/
def handleOpenAfter (t : List FileEv) : Bool :=
  t.foldl
    (fun st e =>
      match e with
      | FileEv.openW => true
      | FileEv.closeF => false
      | _ => st)
    false

/-- A slide used in concrete runs: dedicated title `"Intro"`, notes
`" say hi "`. -/
def exSlideA : Slide :=
  { titleShape := some { hasText := true, text := "Intro" }, shapes := [],
    hasNotesSlide := true, notesText := some " say hi " }

/-- A slide used in concrete runs: no dedicated title, one text shape. -/
def exSlideB : Slide :=
  { titleShape := none, shapes := [{ hasText := true, text := "Results 2024" }],
    hasNotesSlide := false, notesText := none }

/-- A two-slide presentation used in concrete runs. -/
def exPrs : Presentation := { metaTitle := some "T", slides := [exSlideA, exSlideB] }

/-- An image-directory listing used in concrete runs, deliberately out of
index order. -/
def exListing : List DirEntry :=
  [{ name := "Slide-1.png", isDir := false }, { name := "Slide-0.png", isDir := false }]

/-- The descriptor produced by running the script on `exPrs` and `exListing`. -/
def exDescriptor : Descriptor :=
  { title := "T",
    slides :=
      [{ index := 0, title := "Intro", notes := "say hi", image := "Slide-0.png" },
       { index := 1, title := "Results 2024", notes := "", image := "Slide-1.png" }] }

/-- A slide whose dedicated title text is a single space. -/
def wsTitleSlide : Slide :=
  { titleShape := some { hasText := true, text := " " }, shapes := [],
    hasNotesSlide := false, notesText := none }

/-- A slide with no text anywhere. -/
def emptySlide : Slide :=
  { titleShape := none, shapes := [], hasNotesSlide := false, notesText := none }

/-- A 150-character string, longer than `maxLength`. -/
def longTitle : String := ⟨List.replicate 150 'x'⟩

/-- The property that a filename ends in `-<digits><extension>` where
`<extension>` is the extension `os.path.splitext` assigns to that very
filename.  This is the spec wording of "carries a numeric index suffix". -/
def hasIndexSuffix (entry : String) : Prop :=
  ∃ a ds, entry.data = a ++ '-' :: (ds ++ (pysplitext entry).2.data) ∧
    ds ≠ [] ∧ ∀ c ∈ ds, c.isDigit

/-- Decimal digit characters, used to spell out filenames `Slide-<k><ext>`. -/
def dChar (n : Nat) : Char :=
  match n with
  | 0 => '0'
  | 1 => '1'
  | 2 => '2'
  | 3 => '3'
  | 4 => '4'
  | 5 => '5'
  | 6 => '6'
  | 7 => '7'
  | 8 => '8'
  | _ => '9'

/-- The base-10 digit string of `k`, most significant digit first. -/
def natDigits (n : Nat) : List Char :=
  if _h : n < 10 then [dChar n]
  else natDigits (n / 10) ++ [dChar (n % 10)]
decreasing_by exact Nat.div_lt_self (by omega) (by omega)

/-- What it means for a string to be a well-formed extension: empty, or a dot
followed by dot-free text. -/
def extOk (ext : String) : Prop :=
  ext = "" ∨ ∃ t, ext.data = '.' :: t ∧ '.' ∉ t

-- Scratch sanity checks (mirroring the naming convention in the source).
example : parseIndex "Slide-5.png" = 5 := by decide
example : parseIndex "Slide-007.png" = 7 := by decide
example : parseIndex "data.json" = 0 := by decide
example : parseIndex "Slide-5" = 5 := by decide
example : parseIndex "Slide-5png" = 0 := by decide
example : parseIndex "a-1.2.3" = 0 := by decide
example : pstrip " a  b " = "a b" → False := by decide
example : pstrip (collapseWs " a \t b ") = "a b" := by decide
example : resolveDocTitle none "my.deck.pptx" = "my" := by decide
example : resolveDocTitle (some "X") "my.deck.pptx" = "X" := by decide

unseal List.mergeSort List.merge in
example :
    runProgram ["deck.pptx", "imgs"]
      { metaTitle := some "T",
        slides :=
          [{ titleShape := some { hasText := true, text := "Intro" }, shapes := [],
             hasNotesSlide := true, notesText := some " say hi " },
           { titleShape := none,
             shapes := [{ hasText := true, text := "Results 2024" }],
             hasNotesSlide := false, notesText := none }] }
      [{ name := "Slide-1.png", isDir := false },
       { name := "Slide-0.png", isDir := false }] =
    Except.ok
      { title := "T",
        slides :=
          [{ index := 0, title := "Intro", notes := "say hi", image := "Slide-0.png" },
           { index := 1, title := "Results 2024", notes := "", image := "Slide-1.png" }] } := by
  rfl

/-! Helper lemmas about truncation. -/

lemma truncateTitle_of_le {t : String} (h : t.length ≤ 100) : truncateTitle t = t := by
  unfold truncateTitle maxLength
  rw [if_neg (by omega)]

lemma length_truncateTitle (t : String) : (truncateTitle t).length ≤ 100 := by
  unfold truncateTitle maxLength
  split
  · rename_i h
    have h2 : 100 < t.data.length := h
    simp only [String.length, List.length_take]
    omega
  · omega

/-- Claim C6: a resolved title longer than 100 characters is replaced by
exactly its first 100 characters, and a title of at most 100 characters is
left unchanged. -/
theorem claim_C6 (t : String) :
    (100 < t.length → truncateTitle t = ⟨t.data.take 100⟩ ∧ (truncateTitle t).length = 100) ∧
    (t.length ≤ 100 → truncateTitle t = t) := by
  constructor
  · intro h
    have h2 : 100 < t.data.length := h
    constructor
    · unfold truncateTitle maxLength
      rw [if_pos (by omega)]
    · unfold truncateTitle maxLength
      rw [if_pos (by omega)]
      simp only [String.length, List.length_take]
      omega
  · exact truncateTitle_of_le

set_option maxRecDepth 4000 in
/-- Witness for C6 at a concrete 150-character string and at `"abc"`. -/
theorem claim_C6_witness :
    (truncateTitle longTitle = ⟨longTitle.data.take 100⟩ ∧
      (truncateTitle longTitle).length = 100) ∧
    truncateTitle "abc" = "abc" :=
  ⟨(claim_C6 longTitle).1 (by decide), (claim_C6 "abc").2 (by decide)⟩

/-- Claim C8: with fewer than two positional arguments the run fails with the
usage error, whatever the presentation and the directory listing hold, so no
output is produced and neither file is touched. -/
theorem claim_C8 (args : List String) (prs : Presentation) (listing : List DirEntry)
    (h : args.length < 2) : runProgram args prs listing = Except.error usageMsg := by
  unfold runProgram
  rw [if_pos h]

/-- Witness for C8 with an empty argument list. -/
theorem claim_C8_witness :
    runProgram [] { metaTitle := none, slides := [] } [] = Except.error usageMsg :=
  claim_C8 [] { metaTitle := none, slides := [] } [] (by decide)

/-- Claim C9: after the output-writing block runs, whether `open`, the JSON
serialisation and the `write` call succeed or raise, the `data.json` handle is
closed. -/
theorem claim_C9 (openOk serOk writeOk : Bool) :
    handleOpenAfter (writeDataJson openOk serOk writeOk) = false := by
  cases openOk <;> cases serOk <;> cases writeOk <;> rfl

/-! Helper lemmas about the title fallback of the presentation. -/

lemma splitOnDot_headD (l : List Char) :
    (splitOnDot l).headD [] = l.takeWhile (fun c => c != '.') := by
  induction l with
  | nil => rfl
  | cons c cs ih =>
    by_cases hc : c = '.'
    · subst hc
      simp [splitOnDot, List.takeWhile_cons]
    · simp only [splitOnDot]
      rw [if_neg (by simpa using hc), List.headD_cons, List.takeWhile_cons,
        if_pos (by simpa using hc), ih]

lemma fallbackTitle_eq (p : String) :
    (⟨(splitOnDot (basename p).data).headD []⟩ : String) =
    ⟨(basename p).data.takeWhile (fun c => c != '.')⟩ :=
  congrArg _ (splitOnDot_headD _)

/-- Counterexample to C2 as stated: for a source file `my.deck.pptx` with no
metadata title the computed title is `"my"`, not the base name without its
extension `"my.deck"`. -/
theorem claim_C2_cex :
    resolveDocTitle none "my.deck.pptx" = "my" ∧
    resolveDocTitle none "my.deck.pptx" ≠ "my.deck" := by
  decide

/-- Claim C2 (amended): when the metadata title is absent, empty or the
placeholder, the descriptor title is the longest dot-free prefix of the source
file base name — the part before the first dot, which equals the base name
without its extension only when the stem itself has no dot. -/
theorem claim_C2_amended (mt : Option String) (p : String)
    (h : mt = none ∨ mt = some "" ∨ mt = some "PowerPoint Presentation") :
    resolveDocTitle mt p = ⟨(basename p).data.takeWhile (fun c => c != '.')⟩ := by
  rcases h with h | h | h <;> subst h
  · simp only [resolveDocTitle]
    exact fallbackTitle_eq p
  · simp only [resolveDocTitle]
    rw [if_pos (Or.inl (by decide))]
    exact fallbackTitle_eq p
  · simp only [resolveDocTitle]
    rw [if_pos (Or.inr trivial)]
    exact fallbackTitle_eq p

/-- Witness for C2 (amended) at the placeholder title. -/
theorem claim_C2_witness :
    resolveDocTitle (some "PowerPoint Presentation") "talk.pptx" =
      ⟨(basename "talk.pptx").data.takeWhile (fun c => c != '.')⟩ :=
  claim_C2_amended (some "PowerPoint Presentation") "talk.pptx" (Or.inr (Or.inr rfl))

/-- Counterexample to C3 as stated: a dedicated title shape whose text is a
single space makes the resolver return the empty string, which is not
non-empty. -/
theorem claim_C3_cex : resolveTitle 0 wsTitleSlide = "" := by decide

/-- Claim C3 (amended): the resolver always returns at most 100 characters,
and when neither the dedicated title region nor any shape yields a title the
result is exactly `"Untitled <slideIndex>"`; the non-emptiness part of the
claim fails (see the counterexample), since selected text can normalise to the
empty string. -/
theorem claim_C3_amended (i : Nat) (s : Slide) :
    (resolveTitle i s).length ≤ 100 ∧
    ((toString i).length ≤ 91 → rawTitle s = none →
      resolveTitle i s = "Untitled " ++ toString i) := by
  constructor
  · unfold resolveTitle
    exact length_truncateTitle _
  · intro hlen hraw
    unfold resolveTitle
    rw [hraw]
    apply truncateTitle_of_le
    rw [String.length_append]
    have : ("Untitled " : String).length = 9 := by decide
    omega

/-- Witness for C3 (amended) at a slide with no text at all. -/
theorem claim_C3_witness :
    (resolveTitle 7 emptySlide).length ≤ 100 ∧
    resolveTitle 7 emptySlide = "Untitled " ++ toString 7 :=
  ⟨(claim_C3_amended 7 emptySlide).1,
   (claim_C3_amended 7 emptySlide).2 (by decide) (by rfl)⟩

/-! Helper lemmas about `extSplit`, `pysplitext` and digit strings. -/

lemma data_mk (l : List Char) : (⟨l⟩ : String).data = l := rfl

lemma extSplit_eq_none {l : List Char} (h : '.' ∉ l) : extSplit l = none := by
  induction l with
  | nil => rfl
  | cons c cs ih =>
    have hc : ¬c = '.' := by
      intro hh
      subst hh
      exact h (List.mem_cons_self _ _)
    have hcs : '.' ∉ cs := fun hh => h (List.mem_cons_of_mem c hh)
    simp [extSplit, ih hcs, hc]

lemma extSplit_append_last {A t : List Char} (hA : '.' ∉ A) (ht : '.' ∉ t) :
    extSplit (A ++ '.' :: t) = some (A, '.' :: t) := by
  induction A with
  | nil => simp [extSplit, extSplit_eq_none ht]
  | cons c A ih =>
    have hA2 : '.' ∉ A := fun hh => hA (List.mem_cons_of_mem c hh)
    simp only [List.cons_append, extSplit]
    rw [show List.append A ('.' :: t) = A ++ '.' :: t from rfl, ih hA2]

lemma eq_append_of_extSplit {l r e : List Char} (h : extSplit l = some (r, e)) :
    l = r ++ e := by
  induction l generalizing r e with
  | nil => cases h
  | cons c cs ih =>
    cases hcs : extSplit cs with
    | some p =>
      obtain ⟨r2, e2⟩ := p
      simp only [extSplit, hcs, Option.some.injEq, Prod.mk.injEq] at h
      obtain ⟨hr, he⟩ := h
      subst he
      rw [← hr, List.cons_append, ← ih hcs]
    | none =>
      by_cases hc : c = '.'
      · subst hc
        simp only [extSplit, hcs, beq_self_eq_true, if_true, Option.some.injEq,
          Prod.mk.injEq] at h
        obtain ⟨hr, he⟩ := h
        rw [← hr, ← he]
        rfl
      · simp [extSplit, hcs, hc] at h

lemma pysplitext_recombine (p : String) :
    (pysplitext p).1.data ++ (pysplitext p).2.data = p.data := by
  unfold pysplitext
  cases h : extSplit p.data with
  | none => simp [data_mk]
  | some pr =>
    obtain ⟨r, e⟩ := pr
    have hre : p.data = r ++ e := eq_append_of_extSplit h
    by_cases ha : r.any (fun c => c != '.') = true
    · simp only [if_pos ha, data_mk]
      exact hre.symm
    · simp only [if_neg ha, data_mk]
      simp

lemma before_trailing (l : List Char) : beforeDigits l ++ trailingDigits l = l := by
  unfold beforeDigits trailingDigits
  rw [← List.reverse_append, List.takeWhile_append_dropWhile, List.reverse_reverse]

lemma mem_trailingDigits_isDigit {l : List Char} {c : Char} (hc : c ∈ trailingDigits l) :
    c.isDigit = true := by
  unfold trailingDigits at hc
  rw [List.mem_reverse] at hc
  exact List.mem_takeWhile_imp hc

lemma trailing_append (A B : List Char) (hB : ∀ c ∈ B, c.isDigit = true) :
    trailingDigits (A ++ '-' :: B) = B ∧ beforeDigits (A ++ '-' :: B) = A ++ ['-'] := by
  have hrev : (A ++ '-' :: B).reverse = B.reverse ++ '-' :: A.reverse := by
    simp
  have hall : ∀ a ∈ B.reverse, a.isDigit = true := by
    intro a ha
    exact hB a (List.mem_reverse.mp ha)
  constructor
  · unfold trailingDigits
    rw [hrev, List.takeWhile_append_of_pos hall, List.takeWhile_cons_of_neg (by decide)]
    simp
  · unfold beforeDigits
    rw [hrev, List.dropWhile_append_of_pos hall, List.dropWhile_cons_of_neg (by decide)]
    simp

lemma parseIndex_eq_of_root (A : List Char) {e : String} {digs : List Char}
    (hne : digs ≠ []) (hd : ∀ c ∈ digs, c.isDigit = true)
    (hroot : (pysplitext e).1.data = A ++ '-' :: digs) :
    parseIndex e = digitsToNat digs := by
  obtain ⟨htd, hbd⟩ := trailing_append A digs hd
  simp only [parseIndex, hroot, htd, hbd]
  rw [if_pos ⟨hne, List.getLast?_concat _⟩]

lemma dChar_isDigit (n : Nat) : (dChar n).isDigit = true := by
  unfold dChar
  split <;> decide

lemma dChar_toNat {n : Nat} (h : n < 10) : (dChar n).toNat = 48 + n := by
  interval_cases n <;> decide

lemma natDigits_ne_nil (n : Nat) : natDigits n ≠ [] := by
  rw [natDigits]
  split <;> simp

lemma natDigits_digits (n : Nat) : ∀ c ∈ natDigits n, c.isDigit = true := by
  induction n using Nat.strong_induction_on with
  | _ n ih =>
    rw [natDigits]
    split
    · intro c hc
      simp only [List.mem_singleton] at hc
      subst hc
      exact dChar_isDigit _
    · intro c hc
      rw [List.mem_append] at hc
      rcases hc with hc | hc
      · exact ih (n / 10) (Nat.div_lt_self (by omega) (by omega)) c hc
      · simp only [List.mem_singleton] at hc
        subst hc
        exact dChar_isDigit _

lemma digitsToNat_concat (l : List Char) (c : Char) :
    digitsToNat (l ++ [c]) = 10 * digitsToNat l + (c.toNat - 48) := by
  simp [digitsToNat, List.foldl_append]
  omega

lemma digitsToNat_natDigits (n : Nat) : digitsToNat (natDigits n) = n := by
  induction n using Nat.strong_induction_on with
  | _ n ih =>
    rw [natDigits]
    split
    · rename_i h
      simp [digitsToNat, dChar_toNat h]
    · rename_i h
      rw [digitsToNat_concat, ih (n / 10) (Nat.div_lt_self (by omega) (by omega)),
        dChar_toNat (Nat.mod_lt n (by omega))]
      omega

lemma digitsToNat_replicate (z : Nat) : digitsToNat (List.replicate z '0') = 0 := by
  induction z with
  | zero => rfl
  | succ z ih =>
    rw [List.replicate_succ]
    simpa [digitsToNat] using ih

lemma digitsToNat_zeros_append (z : Nat) (l : List Char) :
    digitsToNat (List.replicate z '0' ++ l) = digitsToNat l := by
  have h0 : digitsToNat (List.replicate z '0') = 0 := digitsToNat_replicate z
  simp only [digitsToNat, List.foldl_append] at h0 ⊢
  rw [h0]

/-- Counterexample to C4 as stated: with the extension string `"png"` (no
leading dot) and digit string `"5"`, the filename `Slide-5png` parses to `0`,
not `5`, because `os.path.splitext` assigns it an empty extension and the
regex then requires the digits to sit at the very end of the name. -/
theorem claim_C4_cex :
    parseIndex ("Slide-" ++ "5" ++ "png") = 0 ∧ parseIndex ("Slide-" ++ "5" ++ "png") ≠ 5 := by
  decide

/-- Claim C4 (amended): the round-trip holds for every extension string that
is well formed — empty, or a dot followed by dot-free text (which is the only
shape `os.path.splitext` can ever return).  For such `ext`, any number of
leading zeros and any `k`, the indexer recovers exactly `k` from
`Slide-<zeros><digits of k><ext>`. -/
theorem claim_C4_amended (z k : Nat) (ext : String) (h : extOk ext) :
    parseIndex ⟨"Slide-".data ++ (List.replicate z '0' ++ natDigits k) ++ ext.data⟩ = k := by
  have hd : ∀ c ∈ List.replicate z '0' ++ natDigits k, c.isDigit = true := by
    intro c hc
    rw [List.mem_append] at hc
    rcases hc with hc | hc
    · rw [List.eq_of_mem_replicate hc]
      decide
    · exact natDigits_digits k c hc
  have hne : List.replicate z '0' ++ natDigits k ≠ [] := by
    intro hh
    exact natDigits_ne_nil k (List.append_eq_nil.mp hh).2
  have hnd : '.' ∉ List.replicate z '0' ++ natDigits k := by
    intro hc
    have := hd '.' hc
    exact absurd this (by decide)
  have hform : "Slide-".data ++ (List.replicate z '0' ++ natDigits k) =
      ['S', 'l', 'i', 'd', 'e'] ++ '-' :: (List.replicate z '0' ++ natDigits k) := rfl
  have hval : digitsToNat (List.replicate z '0' ++ natDigits k) = k := by
    rw [digitsToNat_zeros_append, digitsToNat_natDigits]
  rcases h with h | ⟨t, het, hnt⟩
  · subst h
    have hnodot : '.' ∉ "Slide-".data ++ (List.replicate z '0' ++ natDigits k) ++
        ("" : String).data := by
      intro hc
      rw [List.append_assoc, List.mem_append] at hc
      rcases hc with hc | hc
      · exact absurd hc (by decide)
      · rw [List.mem_append] at hc
        rcases hc with hc | hc
        · exact hnd hc
        · exact absurd hc (by decide)
    have hsplit : pysplitext ⟨"Slide-".data ++ (List.replicate z '0' ++ natDigits k) ++
        ("" : String).data⟩ =
        (⟨"Slide-".data ++ (List.replicate z '0' ++ natDigits k) ++ ("" : String).data⟩, "") := by
      unfold pysplitext
      rw [data_mk, extSplit_eq_none hnodot]
    rw [parseIndex_eq_of_root ['S', 'l', 'i', 'd', 'e'] hne hd ?hroot, hval]
    case hroot =>
      rw [hsplit, data_mk]
      show "Slide-".data ++ (List.replicate z '0' ++ natDigits k) ++ [] = _
      rw [List.append_nil, hform]
  · have hpref : '.' ∉ "Slide-".data ++ (List.replicate z '0' ++ natDigits k) := by
      intro hc
      rw [List.mem_append] at hc
      rcases hc with hc | hc
      · exact absurd hc (by decide)
      · exact hnd hc
    have hsplit2 : extSplit ("Slide-".data ++ (List.replicate z '0' ++ natDigits k) ++ ext.data) =
        some ("Slide-".data ++ (List.replicate z '0' ++ natDigits k), '.' :: t) := by
      rw [het, List.append_assoc] at *
      exact extSplit_append_last hpref hnt
    have hany : ("Slide-".data ++ (List.replicate z '0' ++ natDigits k)).any
        (fun c => c != '.') = true := by
      rw [hform]
      simp
    have hsplit3 : pysplitext ⟨"Slide-".data ++ (List.replicate z '0' ++ natDigits k) ++
        ext.data⟩ =
        (⟨"Slide-".data ++ (List.replicate z '0' ++ natDigits k)⟩, ⟨'.' :: t⟩) := by
      unfold pysplitext
      rw [data_mk, hsplit2]
      simp only [hany, if_true]
    rw [parseIndex_eq_of_root ['S', 'l', 'i', 'd', 'e'] hne hd ?hroot2, hval]
    case hroot2 =>
      rw [hsplit3, data_mk, hform]

/-- Witness for C4 (amended): `Slide-07.png` parses to `7`. -/
theorem claim_C4_witness :
    parseIndex ⟨"Slide-".data ++ (List.replicate 1 '0' ++ natDigits 7) ++ ".png".data⟩ = 7 :=
  claim_C4_amended 1 7 ".png" (Or.inr ⟨['p', 'n', 'g'], rfl, by decide⟩)

lemma parseIndex_zero_of_no_suffix {e : String} (h : ¬ hasIndexSuffix e) :
    parseIndex e = 0 := by
  by_cases hc : trailingDigits (pysplitext e).1.data ≠ [] ∧
      (beforeDigits (pysplitext e).1.data).getLast? = some '-'
  · exfalso
    apply h
    obtain ⟨hne, hlast⟩ := hc
    obtain ⟨pre2, hpre⟩ := List.getLast?_eq_some_iff.mp hlast
    refine ⟨pre2, trailingDigits (pysplitext e).1.data, ?_, hne,
      fun c hc2 => mem_trailingDigits_isDigit hc2⟩
    calc e.data = (pysplitext e).1.data ++ (pysplitext e).2.data :=
          (pysplitext_recombine e).symm
      _ = (beforeDigits (pysplitext e).1.data ++ trailingDigits (pysplitext e).1.data) ++
          (pysplitext e).2.data := by rw [before_trailing]
      _ = ((pre2 ++ ['-']) ++ trailingDigits (pysplitext e).1.data) ++
          (pysplitext e).2.data := by rw [← hpre]
      _ = pre2 ++ '-' :: (trailingDigits (pysplitext e).1.data ++ (pysplitext e).2.data) := by
          simp
  · simp only [parseIndex]
    rw [if_neg hc]

/-- Claim C5: a filename that does not end in `-<digits><its own extension>`
parses to index 0. -/
theorem claim_C5 (e : String) (h : ¬ hasIndexSuffix e) : parseIndex e = 0 :=
  parseIndex_zero_of_no_suffix h

lemma hasIndexSuffix_dash {e : String} (h : hasIndexSuffix e) : '-' ∈ e.data := by
  obtain ⟨a, ds, heq, -, -⟩ := h
  rw [heq]
  simp

/-- Witness for C5: `data.json` parses to index 0. -/
theorem claim_C5_witness : parseIndex "data.json" = 0 :=
  claim_C5 "data.json" (fun h => absurd (hasIndexSuffix_dash h) (by decide))

/-! Helper lemmas about the join, the sort and the whole run. -/

lemma buildSlideInfoFrom_length (i : Nat) (sl : List Slide) :
    (buildSlideInfoFrom i sl).length = sl.length := by
  induction sl generalizing i with
  | nil => rfl
  | cons s rest ih => simp [buildSlideInfoFrom, ih]

lemma buildSlideInfo_length (sl : List Slide) :
    (buildSlideInfo sl).length = sl.length :=
  buildSlideInfoFrom_length 0 sl

lemma processEntries_error_of_oob {info : List SlideInfo} :
    ∀ {es : List DirEntry} {e : DirEntry}, e ∈ es → e.isDir = false →
      info.length ≤ parseIndex e.name →
      processEntries info es = Except.error indexErrMsg := by
  intro es
  induction es with
  | nil =>
    intro e he hd hi
    exact absurd he (List.not_mem_nil e)
  | cons f fs ih =>
    intro e he hd hi
    rcases List.mem_cons.mp he with hef | hef
    · subst hef
      simp only [processEntries, hd, Bool.false_eq_true, if_false]
      rw [List.get?_eq_none.mpr hi]
    · cases hfd : f.isDir with
      | true =>
        simp only [processEntries, hfd, if_true]
        exact ih hef hd hi
      | false =>
        simp only [processEntries, hfd, Bool.false_eq_true, if_false]
        cases hg : info.get? (parseIndex f.name) with
        | none => rfl
        | some si =>
          rw [ih hef hd hi]

lemma processEntries_ok_mem {info : List SlideInfo} :
    ∀ {es : List DirEntry} {recs : List SlideRecord},
      processEntries info es = Except.ok recs →
      ∀ {e : DirEntry}, e ∈ es → e.isDir = false →
      ∃ si, info.get? (parseIndex e.name) = some si ∧
        ({ index := parseIndex e.name, title := si.title, notes := si.notes,
           image := e.name } : SlideRecord) ∈ recs := by
  intro es
  induction es with
  | nil =>
    intro recs h e he
    exact absurd he (List.not_mem_nil e)
  | cons f fs ih =>
    intro recs h e he hd
    rcases List.mem_cons.mp he with hef | hef
    · subst hef
      simp only [processEntries, hd, Bool.false_eq_true, if_false] at h
      cases hg : info.get? (parseIndex e.name) with
      | none =>
        rw [hg] at h
        cases h
      | some si =>
        rw [hg] at h
        cases hr : processEntries info fs with
        | error m =>
          rw [hr] at h
          cases h
        | ok rest =>
          rw [hr] at h
          injection h with h2
          exact ⟨si, rfl, by rw [← h2]; exact List.mem_cons_self _ _⟩
    · cases hfd : f.isDir with
      | true =>
        simp only [processEntries, hfd, if_true] at h
        exact ih h hef hd
      | false =>
        simp only [processEntries, hfd, Bool.false_eq_true, if_false] at h
        cases hg : info.get? (parseIndex f.name) with
        | none =>
          rw [hg] at h
          cases h
        | some si2 =>
          rw [hg] at h
          cases hr : processEntries info fs with
          | error m =>
            rw [hr] at h
            cases h
          | ok rest =>
            rw [hr] at h
            injection h with h2
            obtain ⟨si, hsi, hmem⟩ := ih hr hef hd
            exact ⟨si, hsi, by rw [← h2]; exact List.mem_cons_of_mem _ hmem⟩

lemma runProgram_ok_inv {args : List String} {prs : Presentation} {listing : List DirEntry}
    {d : Descriptor} (h : runProgram args prs listing = Except.ok d) :
    ∃ recs, processEntries (buildSlideInfo prs.slides) listing = Except.ok recs ∧
      d.slides = recs.mergeSort recLe := by
  unfold runProgram at h
  by_cases hl : args.length < 2
  · rw [if_pos hl] at h
    cases h
  · rw [if_neg hl] at h
    cases hp : processEntries (buildSlideInfo prs.slides) listing with
    | error m =>
      rw [hp] at h
      cases h
    | ok recs =>
      rw [hp] at h
      injection h with h2
      exact ⟨recs, rfl, by rw [← h2]⟩

lemma recLe_trans : ∀ a b c : SlideRecord, recLe a b → recLe b c → recLe a c := by
  intro a b c hab hbc
  simp only [recLe, decide_eq_true_eq] at *
  omega

lemma recLe_total : ∀ a b : SlideRecord, recLe a b || recLe b a := by
  intro a b
  simp only [recLe, Bool.or_eq_true, decide_eq_true_eq]
  omega

lemma sorted_mergeSort_slides (l : List SlideRecord) :
    (l.mergeSort recLe).Pairwise (fun a b => a.index ≤ b.index) := by
  have h := List.sorted_mergeSort recLe_trans recLe_total l
  exact h.imp (fun hab => by simpa [recLe] using hab)

lemma mergeSort_filter_index (l : List SlideRecord) (i : Nat) :
    (l.mergeSort recLe).filter (fun r => r.index == i) =
    l.filter (fun r => r.index == i) := by
  have hpair : (l.filter (fun r => r.index == i)).Pairwise (fun a b => recLe a b) := by
    apply List.pairwise_of_forall_mem_list
    intro a ha b hb
    have ha2 : a.index = i := by simpa using (List.mem_filter.mp ha).2
    have hb2 : b.index = i := by simpa using (List.mem_filter.mp hb).2
    simp [recLe, ha2, hb2]
  have hsub : List.Sublist (l.filter (fun r => r.index == i)) (l.mergeSort recLe) :=
    List.sublist_mergeSort recLe_trans recLe_total hpair (List.filter_sublist l)
  have hself : (l.filter (fun r => r.index == i)).filter (fun r => r.index == i) =
      l.filter (fun r => r.index == i) :=
    List.filter_eq_self.mpr (fun a ha => (List.mem_filter.mp ha).2)
  have hsub2 : List.Sublist (l.filter (fun r => r.index == i))
      ((l.mergeSort recLe).filter (fun r => r.index == i)) :=
    hself ▸ hsub.filter _
  have hlen : ((l.mergeSort recLe).filter (fun r => r.index == i)).length =
      (l.filter (fun r => r.index == i)).length :=
    ((List.mergeSort_perm l recLe).filter _).length_eq
  exact (hsub2.eq_of_length hlen.symm).symm

/-- Claim C1: an image filename whose parsed index is outside `0..N-1` makes
the whole run abort with the `IndexError`, so no descriptor and no output
file are produced and no record is skipped or defaulted. -/
theorem claim_C1 (args : List String) (prs : Presentation) (listing : List DirEntry)
    (e : DirEntry) (hargs : 2 ≤ args.length) (he : e ∈ listing) (hd : e.isDir = false)
    (hoob : prs.slides.length ≤ parseIndex e.name) :
    runProgram args prs listing = Except.error indexErrMsg := by
  unfold runProgram
  rw [if_neg (by omega),
    processEntries_error_of_oob he hd (by rw [buildSlideInfo_length]; exact hoob)]

/-- Witness for C1: `Slide-5.png` against a two-slide presentation aborts. -/
theorem claim_C1_witness :
    runProgram ["deck.pptx", "imgs"] exPrs [{ name := "Slide-5.png", isDir := false }] =
      Except.error indexErrMsg :=
  claim_C1 ["deck.pptx", "imgs"] exPrs [{ name := "Slide-5.png", isDir := false }]
    { name := "Slide-5.png", isDir := false } (by decide) (List.mem_singleton.mpr rfl) rfl
    (by decide)

/-- Claim C7: on any successful run the output slides are sorted ascending by
index, and the elements sharing any fixed index appear in exactly their
original listing order (stability of the underlying sort). -/
theorem claim_C7 (args : List String) (prs : Presentation) (listing : List DirEntry)
    (d : Descriptor) (h : runProgram args prs listing = Except.ok d) :
    d.slides.Pairwise (fun a b => a.index ≤ b.index) ∧
    (∀ recs i, processEntries (buildSlideInfo prs.slides) listing = Except.ok recs →
      d.slides.filter (fun r => r.index == i) = recs.filter (fun r => r.index == i)) := by
  obtain ⟨recs0, hp, hsl⟩ := runProgram_ok_inv h
  constructor
  · rw [hsl]
    exact sorted_mergeSort_slides recs0
  · intro recs i hrecs
    rw [hp] at hrecs
    injection hrecs with h2
    subst h2
    rw [hsl]
    exact mergeSort_filter_index recs0 i

unseal List.mergeSort List.merge in
/-- Witness for C7 on the concrete two-image run. -/
theorem claim_C7_witness :
    exDescriptor.slides.Pairwise (fun a b => a.index ≤ b.index) ∧
    (∀ recs i, processEntries (buildSlideInfo exPrs.slides) exListing = Except.ok recs →
      exDescriptor.slides.filter (fun r => r.index == i) =
        recs.filter (fun r => r.index == i)) :=
  claim_C7 ["deck.pptx", "imgs"] exPrs exListing exDescriptor (by rfl)

/-- Claim C10: on a successful run, every non-directory entry — slide image
or not — is joined with the slide at its parsed index and emitted as a
record; entries without an index suffix get index 0 and slide 0 fields. -/
theorem claim_C10 (args : List String) (prs : Presentation) (listing : List DirEntry)
    (d : Descriptor) (e : DirEntry) (h : runProgram args prs listing = Except.ok d)
    (he : e ∈ listing) (hd : e.isDir = false) :
    ∃ si, (buildSlideInfo prs.slides).get? (parseIndex e.name) = some si ∧
      ({ index := parseIndex e.name, title := si.title, notes := si.notes,
         image := e.name } : SlideRecord) ∈ d.slides ∧
      (¬ hasIndexSuffix e.name → parseIndex e.name = 0) := by
  obtain ⟨recs0, hp, hsl⟩ := runProgram_ok_inv h
  obtain ⟨si, hsi, hmem⟩ := processEntries_ok_mem hp he hd
  refine ⟨si, hsi, ?_, fun hno => parseIndex_zero_of_no_suffix hno⟩
  rw [hsl, List.mem_mergeSort]
  exact hmem

unseal List.mergeSort List.merge in
/-- Witness for C10 at the entry `Slide-0.png` of the concrete run. -/
theorem claim_C10_witness :
    ∃ si, (buildSlideInfo exPrs.slides).get? (parseIndex "Slide-0.png") = some si ∧
      ({ index := parseIndex "Slide-0.png", title := si.title, notes := si.notes,
         image := "Slide-0.png" } : SlideRecord) ∈ exDescriptor.slides ∧
      (¬ hasIndexSuffix "Slide-0.png" → parseIndex "Slide-0.png" = 0) :=
  claim_C10 ["deck.pptx", "imgs"] exPrs exListing exDescriptor
    { name := "Slide-0.png", isDir := false } (by rfl) (by decide) rfl

end WriteSlideData
